import Mathlib

/-!
# Verification of the RFSoC-Book notebook arithmetic

Shallow embedding of the small arithmetic helpers appearing in the
RFSoC-Book notebooks: the LLR symmetric-saturation quantizer
`format_llr`, the SD-FEC control-word bit packing, the DMA data-buffer
sizing, the serialise-and-truncate step of `transfer_data_block`, the
bit-error-rate computation, the radio clock setup cell, the radio data
frame, and the interrupt-flag measurement loop.  Python integers are
modelled as `Nat` or `Int`, Python floats as `ℚ`, byte buffers as
`List ℕ`, and the one exception path as `Except`.
-/

namespace RFSoC

/-! ## LLR formatting (notebook H, 04 - FEC decoding)

Source: `format_llr(llr)`, which saturates symmetrically to the
interval from -7.75 to 7.75, scales by `pow(2,2)` and rounds with
`int(np.round(llr))`, converts to a six-character binary string in
twos complement form, sign extends to eight characters by prepending
two copies of the leading character, and reads the result back with
`int(binary_extended, 2)`. -/

/-- Binary digits of `n`, least-significant first.  The first argument
is fuel; `n` itself is always enough fuel since `n` has at most `n`
binary digits. -/
def bitsLEAux : ℕ → ℕ → List ℕ
  | 0, _ => []
  | fuel + 1, n => if n = 0 then [] else n % 2 :: bitsLEAux fuel (n / 2)

/-- Binary digits of `n`, most-significant first, at least one digit:
the digits of Python `bin(n)` for a nonnegative `n`. -/
def bitsBE (n : ℕ) : List ℕ :=
  if n = 0 then [0] else (bitsLEAux n n).reverse

/-- Python binary formatting with format spec `06b` (binary digits,
zero-padded on the left to a minimum width of six characters) for a
nonnegative argument; each list entry is one digit.  In `format_llr`
the argument always lies below 64, so exactly six digits result. -/
def format06b (x : ℕ) : List ℕ :=
  List.replicate (6 - (bitsBE x).length) 0 ++ bitsBE x

/-- Python `int(s, 2)`: the value of a digit list read in base two. -/
def bitsToNat (l : List ℕ) : ℕ := l.foldl (fun acc b => acc * 2 + b) 0

/-- The rounding used by `np.round` on an exact value: round to the
nearest integer, ties to the even integer. -/
def npRound (x : ℚ) : ℤ :=
  if x - ⌊x⌋ < 1 / 2 then ⌊x⌋
  else if 1 / 2 < x - ⌊x⌋ then ⌊x⌋ + 1
  else if ⌊x⌋ % 2 = 0 then ⌊x⌋ else ⌊x⌋ + 1

/-- Stage 1 of `format_llr`: symmetric saturation.
Source: `if llr > 7.75: llr = 7.75  elif llr < -7.75: llr = -7.75`. -/
def saturate (llr : ℚ) : ℚ :=
  if 7.75 < llr then 7.75 else if llr < -7.75 then -7.75 else llr

/-- The integer-representation step of `format_llr`.
Source: `llr = llr * pow(2,2)` followed by `llr = int(np.round(llr))`
(the `int` conversion of the integral rounded value is the identity
on the mathematical value). -/
def quantize (llr : ℚ) : ℤ := npRound (llr * 2 ^ 2)

/-- Stage 2 of `format_llr`: conversion to a six-digit twos-complement
string.  Source: the nonnegative branch formats `llr` itself and the
negative branch formats `pow(2,6) + llr`; on every reachable input the
formatted quantity lies in 0..63, so taking `Int.toNat` after the
addition is exact. -/
def encode6 (v : ℤ) : List ℕ :=
  if 0 ≤ v then format06b v.toNat else format06b (2 ^ 6 + v).toNat

/-- Stage 3 of `format_llr`: sign extension to eight digits.
Source: two zero characters are prepended when the leading character
is a zero, two one characters otherwise. -/
def signExtend (binary : List ℕ) : List ℕ :=
  if binary.headI = 0 then 0 :: 0 :: binary else 1 :: 1 :: binary

/-- The full `format_llr` function of notebook 04: saturate, quantize
to an integer carrying two fractional bits, encode as six-digit
twos complement, sign extend to eight digits, and read the digits
back as a byte value with `int(binary_extended, 2)`. -/
def format_llr (llr : ℚ) : ℕ :=
  bitsToNat (signExtend (encode6 (quantize (saturate llr))))

/-- Reading a byte as an 8-bit twos-complement number. -/
def toSigned8 (b : ℕ) : ℤ := if b < 128 then (b : ℤ) else (b : ℤ) - 256

/-! ## SD-FEC encoder control word (notebook H, 02 - FEC encoding)

Source: `ctrl_word = (block_id << 24) + (code_id << 0)`. -/

/-- The encoder control word assembled in notebook 02:
`ctrl_word = (block_id << 24) + (code_id << 0)`. -/
def ctrl_word (block_id code_id : ℕ) : ℕ :=
  (block_id <<< 24) + (code_id <<< 0)

/-! ## SD-FEC decoder control word helper

Modelled from the spec: the helper `hf.create_ctrl_word` lives in the
helper-functions module accompanying the notebooks and is not part of
the given sources.  The spec describes it as assembling a 32-bit
control word by shift-and-add from a field dictionary, following the
decoder control table: external block ID in bits 31:24, maximum
iterations in bits 23:18, terminate-on-no-change in bit 17,
terminate-on-pass in bit 16, include-parity-output in bit 15, hard
output in bit 14, bits 13:7 reserved (zero), code ID in bits 6:0. -/

/-- Modelled from the spec: `hf.create_ctrl_word` for the decoder
readout, shift-and-add packing of the decoder control table fields. -/
def create_ctrl_word (id max_iterations term_on_no_change term_on_pass
    include_parity_op hard_op code_id : ℕ) : ℕ :=
  (id <<< 24) + (max_iterations <<< 18) + (term_on_no_change <<< 17) +
    (term_on_pass <<< 16) + (include_parity_op <<< 15) + (hard_op <<< 14) +
    (code_id <<< 0)

/-! ## DMA data-buffer sizing (notebooks H 02/04/05)

Source: `K = int(np.ceil(k/8))`, `N = int(np.ceil(n/8))`, and the
`allocate(shape=(...), dtype=np.uint8)` calls sizing the four data
buffers, collected in `get_data_buffers` of notebook 05. -/

/-- Python `int(np.ceil(x / 8))` on a nonnegative integer `x`: the
ceiling of the exact division by 8, taken back to `ℕ`. -/
def pyCeil8 (x : ℕ) : ℕ := (⌈(x : ℚ) / 8⌉).toNat

/-- The element counts of the four DMA data buffers allocated by
`get_data_buffers` (notebook 05); the same shapes are used for
`tx_enc_buf`/`rx_enc_buf` in notebook 02 and `tx_dec_buf`/`rx_dec_buf`
in notebook 04. -/
structure DataBufferSizes where
  enc_tx_buf : ℕ
  enc_rx_buf : ℕ
  dec_tx_buf : ℕ
  dec_rx_buf : ℕ

/-- Buffer allocation of `get_data_buffers`: with
`K = int(np.ceil(k/8))` and `N = int(np.ceil(n/8))`, the encoder
transmit buffer has shape `(K,)`, the encoder receive buffer `(N,)`,
the decoder transmit buffer `(n,)` and the decoder receive buffer
`(K,)`, all one byte per element (`np.uint8`). -/
def get_data_buffers (n k : ℕ) : DataBufferSizes :=
  { enc_tx_buf := pyCeil8 k
    enc_rx_buf := pyCeil8 n
    dec_tx_buf := n
    dec_rx_buf := pyCeil8 k }

/-! ## Radio clock setup (notebook G, 01 - RFSoC Radio System)

Source: the `xrfclk` cell choosing `lmk_freq` from `xrfclk.board` and
calling `xrfclk.set_ref_clks(lmk_freq, 409.6)`, raising a
`RuntimeError` reading "Platform not supported." for unknown boards.
The embedding returns the list of `set_ref_clks` calls made, as
`(lmk_freq, lmx_freq)` pairs, on the success path, and the error
message on the exception path. -/

/-- The clock-setup cell: on a supported board it performs exactly one
`set_ref_clks(lmk_freq, 409.6)` call, with `lmk_freq = 122.88` for
`ZCU111` and `RFSoC2x2` and `245.76` for `RFSoC4x2`; otherwise it
raises the runtime error before any call is made. -/
def set_ref_clks_calls (board : String) : Except String (List (ℚ × ℚ)) :=
  if board = "ZCU111" ∨ board = "RFSoC2x2" then
    .ok [(122.88, 409.6)]
  else if board = "RFSoC4x2" then
    .ok [(245.76, 409.6)]
  else
    .error "Platform not supported."

/-! ## Serialisation and the bit-error-rate computation

Modelled from the spec: `hf.serialise` lives in the helper-functions
module not given in the sources.  Per the notebook text a byte carries
its valid data on the least significant bits (the most significant
padding bits of a partial final byte "should be discarded"), so the
bit stream lists the bits of each byte least-significant first. -/

/-- Modelled from the spec: `hf.serialise`, the byte-buffer to
bit-array conversion, eight bits per byte, least-significant first. -/
def serialise (buf : List ℕ) : List ℕ :=
  buf.flatMap (fun byte => (List.range 8).map (fun i => byte / 2 ^ i % 2))

/-- The truncation step of `transfer_data_block` (notebook 05):
`encoded_data_bits = hf.serialise(enc_rx_buf)` followed by
`encoded_data_bits = encoded_data_bits[0:n]`, executed before
`hf.symbol_map` is applied. -/
def encoded_data_bits (enc_rx_buf : List ℕ) (n : ℕ) : List ℕ :=
  (serialise enc_rx_buf).take n

/-- The error count of the BER cells:
`N_error = np.sum(rx_bits != tx_bits)`, the number of positions at
which the received bit differs from the transmitted bit. -/
def N_error (tx_bits rx_bits : List ℕ) : ℕ :=
  (tx_bits.zip rx_bits).countP (fun p => p.1 != p.2)

/-- The BER of the notebooks: `N_bits = len(tx_bits)` and
`BER = N_error / N_bits`. -/
def BER (tx_bits rx_bits : List ℕ) : ℚ :=
  (N_error tx_bits rx_bits : ℚ) / (tx_bits.length : ℚ)

/-! ## Radio data frame (notebook G, 01 - RFSoC Radio System)

Modelled from the spec: the frame-generation code lives in the
`rfsoc_radio` package and is not part of the given sources.  The
notebook describes the data frame sent by the transmitter software
wrapper as exactly 64 bytes long, with byte-aligned fields — random
data, the extended Barker sequence, the frame number, the start flag,
the end flag, the frame length, the payload — and zero padding
whenever the payload uses fewer than 44 bytes, so the non-payload
fields occupy the remaining 20 bytes. -/

/-- Modelled from the spec: the 64-byte radio data frame, the listed
byte-aligned fields followed by the payload and zero padding filling
the rest of the 44-byte payload area. -/
def make_frame (random barker frame_number start_flag end_flag
    frame_length payload : List ℕ) : List ℕ :=
  random ++ barker ++ frame_number ++ start_flag ++ end_flag ++
    frame_length ++ payload ++ List.replicate (44 - payload.length) 0

/-! ## Interrupt flag and measurement loop (notebook H, 05)

Source: the callback `intr_handler` sets the global `intr_flag` to 1;
the `main` measurement loop polls the flag, and when it reads 1 it
first resets the flag to 0 and then records one BER measurement.  The
state carries the flag and the list of recorded measurements; an
execution is a sequence of interrupt-callback events and main-loop
poll iterations. -/

/-- The measurement-loop state: the global `intr_flag` and the list of
recorded BER measurements. -/
structure BerLoopState where
  intr_flag : ℕ
  BER : List ℚ

/-- The interrupt callback of notebook 05:
`def intr_handler(): global intr_flag; intr_flag = 1`. -/
def intr_handler (s : BerLoopState) : BerLoopState := { s with intr_flag := 1 }

/-- One iteration of the `while(1)` body of `main`: when
`intr_flag == 1` the loop sets `intr_flag = 0` and records one BER
measurement; otherwise it leaves the state unchanged. -/
def main_poll (ber : ℚ) (s : BerLoopState) : BerLoopState :=
  if s.intr_flag = 1 then { intr_flag := 0, BER := s.BER ++ [ber] } else s

/-- An event of an interleaved execution: either the interrupt thread
runs the callback, or the main thread performs one poll iteration
(carrying the measurement value it would record). -/
inductive BerEvent where
  | intr : BerEvent
  | poll : ℚ → BerEvent

/-- Effect of one event on the state. -/
def ber_step : BerEvent → BerLoopState → BerLoopState
  | .intr, s => intr_handler s
  | .poll b, s => main_poll b s

/-- Execution of a sequence of interleaved events. -/
def ber_run (evs : List BerEvent) (s : BerLoopState) : BerLoopState :=
  evs.foldl (fun t e => ber_step e t) s

/-- The number of interrupt-callback events in an event sequence. -/
def countIntr (evs : List BerEvent) : ℕ :=
  evs.countP (fun e => match e with | .intr => true | _ => false)

/-- One when the flag is raised, zero otherwise: the number of
measurements the main loop may still record without a further
interrupt. -/
def pending (s : BerLoopState) : ℕ := if s.intr_flag = 1 then 1 else 0

end RFSoC

namespace RFSoC

/-! ## Helper lemmas -/

/-- Stages 2 and 3 of `format_llr` invert the twos-complement reading
on the quantizer output range. -/
theorem stage23 (v : ℤ) (h1 : -31 ≤ v) (h2 : v ≤ 31) :
    toSigned8 (bitsToNat (signExtend (encode6 v))) = v ∧
    bitsToNat (signExtend (encode6 v)) ≤ 255 := by
  interval_cases v <;> exact ⟨by decide, by decide⟩

/-- `npRound` never rounds below an integer lower bound of its
argument. -/
theorem le_npRound (x : ℚ) (lo : ℤ) (h : (lo : ℚ) ≤ x) : lo ≤ npRound x := by
  have hf : lo ≤ ⌊x⌋ := Int.le_floor.mpr h
  unfold npRound
  split_ifs <;> omega

/-- `npRound` never rounds above an integer upper bound of its
argument. -/
theorem npRound_le (x : ℚ) (hi : ℤ) (h : x ≤ hi) : npRound x ≤ hi := by
  have hf : ⌊x⌋ ≤ hi := by
    calc ⌊x⌋ ≤ ⌊(hi : ℚ)⌋ := Int.floor_le_floor h
      _ = hi := Int.floor_intCast hi
  unfold npRound
  split_ifs with hc1 hc2 hc3
  · exact hf
  all_goals {
    have hr : (1 : ℚ) / 2 ≤ x - ⌊x⌋ := by linarith [not_lt.mp hc1]
    have hne : ⌊x⌋ < hi := by
      rcases lt_or_eq_of_le hf with h' | h'
      · exact h'
      · exfalso
        have : x - ⌊x⌋ ≤ 0 := by
          rw [h']
          linarith
        linarith
    omega }

/-- The if-chain saturation of the source equals the symmetric clamp
of the claim. -/
theorem saturate_eq (llr : ℚ) : saturate llr = min (max llr (-7.75)) 7.75 := by
  unfold saturate
  split_ifs with h1 h2
  · rw [max_eq_left (by linarith), min_eq_right (by linarith)]
  · rw [max_eq_right (by linarith), min_eq_left (by norm_num)]
  · rw [max_eq_left (by linarith), min_eq_left (by linarith)]

/-- The saturated value lies in the symmetric interval. -/
theorem saturate_bounds (llr : ℚ) :
    -7.75 ≤ saturate llr ∧ saturate llr ≤ 7.75 := by
  unfold saturate
  split_ifs with h1 h2
  · norm_num
  · norm_num
  · exact ⟨by linarith, by linarith⟩

/-- The quantizer output is at least -31 on saturated inputs. -/
theorem quantize_lower (llr : ℚ) : -31 ≤ quantize (saturate llr) := by
  apply le_npRound
  push_cast
  nlinarith [(saturate_bounds llr).1]

/-- The quantizer output is at most 31 on saturated inputs. -/
theorem quantize_upper (llr : ℚ) : quantize (saturate llr) ≤ 31 := by
  apply npRound_le
  push_cast
  nlinarith [(saturate_bounds llr).2]

/-- `int(np.ceil(x / 8))` equals the rounding-up integer division
`(x + 7) / 8`. -/
theorem pyCeil8_eq (x : ℕ) : pyCeil8 x = (x + 7) / 8 := by
  obtain ⟨m, hm⟩ : ∃ m : ℕ, m = (x + 7) / 8 := ⟨_, rfl⟩
  have hm1 : x ≤ 8 * m := by omega
  have hm2 : 8 * m < x + 8 := by omega
  have hq1 : (x : ℚ) ≤ 8 * m := by exact_mod_cast hm1
  have hq2 : (8 * m : ℚ) < x + 8 := by exact_mod_cast hm2
  rw [← hm]
  unfold pyCeil8
  have hceil : ⌈(x : ℚ) / 8⌉ = (m : ℤ) := by
    rw [Int.ceil_eq_iff]
    refine ⟨?_, ?_⟩
    · rw [lt_div_iff₀ (by norm_num : (0 : ℚ) < 8)]
      push_cast
      linarith
    · rw [div_le_iff₀ (by norm_num : (0 : ℚ) < 8)]
      push_cast
      linarith
  rw [hceil]
  omega

/-- A serialised buffer carries eight bits per byte. -/
theorem serialise_length (buf : List ℕ) :
    (serialise buf).length = 8 * buf.length := by
  induction buf with
  | nil => simp [serialise]
  | cons b buf ih =>
      simp [serialise] at ih ⊢
      omega

/-- The error count is zero exactly when equal-length bit arrays agree
everywhere. -/
theorem count_diff_eq_zero : ∀ (tx rx : List ℕ), tx.length = rx.length →
    (N_error tx rx = 0 ↔ tx = rx)
  | [], [], _ => by simp [N_error]
  | [], b :: rx, h => by simp at h
  | a :: tx, [], h => by simp at h
  | a :: tx, b :: rx, h => by
      have ih := count_diff_eq_zero tx rx (by simpa using h)
      by_cases hab : a = b
      · subst hab
        simp only [N_error, List.zip_cons_cons, List.countP_cons] at ih ⊢
        simpa using ih
      · simp only [N_error, List.zip_cons_cons, List.countP_cons] at ih ⊢
        refine iff_of_false ?_ ?_
        · simp [hab]
        · intro hc
          injection hc with h1 _
          exact hab h1

/-- Along any interleaved execution the number of recorded
measurements, plus the one measurement a raised flag still licenses,
grows by at most the number of interrupt-callback events: every
recorded measurement is funded by its own interrupt. -/
theorem ber_run_measure : ∀ (evs : List BerEvent) (s : BerLoopState),
    (ber_run evs s).BER.length + pending (ber_run evs s) ≤
      s.BER.length + pending s + countIntr evs
  | [], s => by simp [ber_run, countIntr]
  | e :: evs, s => by
      have ih := ber_run_measure evs (ber_step e s)
      have hrun : ber_run (e :: evs) s = ber_run evs (ber_step e s) := rfl
      have hcnt : countIntr (e :: evs) = countIntr [e] + countIntr evs := by
        simp only [countIntr, List.countP_cons]
        cases e with
        | intr =>
            simp
            omega
        | poll b => simp
      have hstep : (ber_step e s).BER.length + pending (ber_step e s) ≤
          s.BER.length + pending s + countIntr [e] := by
        cases e with
        | intr =>
            have h1 : ber_step BerEvent.intr s = { s with intr_flag := 1 } := rfl
            have h2 : countIntr [BerEvent.intr] = 1 := rfl
            rw [h1, h2]
            unfold pending
            simp only
            split_ifs <;> omega
        | poll b =>
            have h2 : countIntr [BerEvent.poll b] = 0 := rfl
            rw [h2]
            by_cases h : s.intr_flag = 1
            · have h1 : ber_step (BerEvent.poll b) s =
                  { intr_flag := 0, BER := s.BER ++ [b] } := by
                simp [ber_step, main_poll, h]
              rw [h1]
              unfold pending
              simp [h]
            · have h1 : ber_step (BerEvent.poll b) s = s := by
                simp [ber_step, main_poll, h]
              rw [h1]
              omega
      rw [hrun, hcnt]
      omega

/-! ## Claim theorems -/

/-- Claim C1: for every finite input, `format_llr` returns a byte
whose 8-bit twos-complement reading equals the input symmetrically
saturated to the interval from -7.75 to 7.75 and then rounded by
`np.round` of four times the value: the integer
`q = npRound (4 * min (max llr (-7.75)) 7.75)` satisfies
`-31 ≤ q ≤ 31`, the returned byte reads back as exactly `q`, and the
interpreted value `q / 4` (two fractional bits) never reaches -8. -/
theorem format_llr_quantizes (llr : ℚ) :
    -31 ≤ npRound (4 * min (max llr (-7.75)) 7.75) ∧
    npRound (4 * min (max llr (-7.75)) 7.75) ≤ 31 ∧
    toSigned8 (format_llr llr) = npRound (4 * min (max llr (-7.75)) 7.75) ∧
    (toSigned8 (format_llr llr) : ℚ) / 4 ≠ -8 := by
  have hq_eq : npRound (4 * min (max llr (-7.75)) 7.75) =
      quantize (saturate llr) := by
    unfold quantize
    rw [← saturate_eq, mul_comm]
    norm_num
  have h1 := quantize_lower llr
  have h2 := quantize_upper llr
  have hst := stage23 (quantize (saturate llr)) h1 h2
  have hv : toSigned8 (format_llr llr) = quantize (saturate llr) := by
    unfold format_llr
    exact hst.1
  refine ⟨hq_eq ▸ h1, hq_eq ▸ h2, by rw [hv, hq_eq], ?_⟩
  rw [hv]
  intro hc
  have hc32 : (quantize (saturate llr) : ℚ) = -32 := by
    field_simp at hc
    linarith
  have : quantize (saturate llr) = -32 := by exact_mod_cast hc32
  omega

/-- Claim C6: `format_llr` is total straight-line arithmetic — in this
embedding a total function with no `Except`/`Option` in its type — and
for every input, hence for every combination of the saturation branch,
the sign branch and the sign-extension branch, its result is an
integer between 0 and 255. -/
theorem format_llr_range (llr : ℚ) :
    0 ≤ format_llr llr ∧ format_llr llr ≤ 255 := by
  have h1 := quantize_lower llr
  have h2 := quantize_upper llr
  exact ⟨Nat.zero_le _, (stage23 (quantize (saturate llr)) h1 h2).2⟩

/-- Claim C2: for every `block_id` in 0..255 and `code_id` in 0..127
the control word `(block_id << 24) + (code_id << 0)` places the two
fields disjointly — bits 31:24 equal `block_id`, bits 6:0 equal
`code_id`, bits 23:7 are zero — so the documented mask-and-shift
extraction recovers both fields. -/
theorem ctrl_word_fields (block_id code_id : ℕ)
    (hb : block_id ≤ 255) (hc : code_id ≤ 127) :
    ctrl_word block_id code_id / 2 ^ 24 % 2 ^ 8 = block_id ∧
    ctrl_word block_id code_id % 2 ^ 7 = code_id ∧
    ctrl_word block_id code_id / 2 ^ 7 % 2 ^ 17 = 0 := by
  simp only [ctrl_word, Nat.shiftLeft_eq]
  omega

/-- Witness for C2: the concrete values used in notebook 02
(`block_id = 127`, `code_id = 1`). -/
theorem ctrl_word_fields_witness :
    ctrl_word 127 1 / 2 ^ 24 % 2 ^ 8 = 127 ∧
    ctrl_word 127 1 % 2 ^ 7 = 1 ∧
    ctrl_word 127 1 / 2 ^ 7 % 2 ^ 17 = 0 :=
  ctrl_word_fields 127 1 (by decide) (by decide)

/-- Claim C3: for every field dictionary whose values lie in the
documented ranges, the 32-bit decoder control word assembled by
shift-and-add is strictly less than `2 ^ 32`, so it fits in the
single-element `uint32` control buffer without loss. -/
theorem create_ctrl_word_lt (id max_iterations term_on_no_change
    term_on_pass include_parity_op hard_op code_id : ℕ)
    (h1 : id ≤ 255) (h2 : 1 ≤ max_iterations) (h3 : max_iterations ≤ 63)
    (h4 : term_on_no_change ≤ 1) (h5 : term_on_pass ≤ 1)
    (h6 : include_parity_op ≤ 1) (h7 : hard_op ≤ 1) (h8 : code_id ≤ 127) :
    create_ctrl_word id max_iterations term_on_no_change term_on_pass
      include_parity_op hard_op code_id < 2 ^ 32 := by
  simp only [create_ctrl_word, Nat.shiftLeft_eq]
  omega

/-- Witness for C3: the decoder parameters used in notebook 04
(`id = 1`, `max_iterations = 63`, flags 1, 1, 0, 1, `code_id = 1`). -/
theorem create_ctrl_word_lt_witness :
    create_ctrl_word 1 63 1 1 0 1 1 < 2 ^ 32 :=
  create_ctrl_word_lt 1 63 1 1 0 1 1 (by decide) (by decide) (by decide)
    (by decide) (by decide) (by decide) (by decide) (by decide)

/-- Claim C5: for every LDPC code with coded block length `n` and
information length `k`, the DMA data buffers have fixed sizes
determined only by the code: the decoder transmit buffer has exactly
`n` one-byte elements, the decoder receive buffer `⌈k/8⌉` bytes, the
encoder transmit buffer `⌈k/8⌉` bytes and the encoder receive buffer
`⌈n/8⌉` bytes, the ceilings written as rounding-up integer division. -/
theorem data_buffer_sizes (n k : ℕ) :
    (get_data_buffers n k).dec_tx_buf = n ∧
    (get_data_buffers n k).dec_rx_buf = (k + 7) / 8 ∧
    (get_data_buffers n k).enc_tx_buf = (k + 7) / 8 ∧
    (get_data_buffers n k).enc_rx_buf = (n + 7) / 8 := by
  refine ⟨rfl, ?_, ?_, ?_⟩ <;> simp [get_data_buffers, pyCeil8_eq]

/-- Claim C4: the clock-setup cell raises the runtime error reading
"Platform not supported." exactly when the board is none of `ZCU111`,
`RFSoC2x2`, `RFSoC4x2`; on the error path no `set_ref_clks` call is
made, and on the success path `set_ref_clks` is called exactly once,
with LMX frequency 409.6 and LMK frequency 122.88 for
`ZCU111`/`RFSoC2x2` and 245.76 for `RFSoC4x2`. -/
theorem set_ref_clks_platform_check (board : String) :
    (set_ref_clks_calls board = .error "Platform not supported." ↔
      ¬(board = "ZCU111" ∨ board = "RFSoC2x2" ∨ board = "RFSoC4x2")) ∧
    (∀ calls, set_ref_clks_calls board = .ok calls → calls.length = 1) ∧
    ((board = "ZCU111" ∨ board = "RFSoC2x2") →
      set_ref_clks_calls board = .ok [(122.88, 409.6)]) ∧
    (board = "RFSoC4x2" →
      set_ref_clks_calls board = .ok [(245.76, 409.6)]) := by
  unfold set_ref_clks_calls
  split_ifs with h1 h2
  · refine ⟨?_, ?_, fun _ => rfl, ?_⟩
    · exact iff_of_false (by intro hc; cases hc)
        (not_not_intro (h1.elim Or.inl (fun h => Or.inr (Or.inl h))))
    · intro calls hc
      cases hc
      rfl
    · intro h3
      rcases h1 with h1 | h1 <;> subst h1 <;> exact absurd h3 (by decide)
  · refine ⟨?_, ?_, ?_, fun _ => rfl⟩
    · exact iff_of_false (by intro hc; cases hc)
        (not_not_intro (Or.inr (Or.inr h2)))
    · intro calls hc
      cases hc
      rfl
    · intro h3
      exact absurd h3 h1
  · refine ⟨?_, ?_, ?_, ?_⟩
    · refine iff_of_true rfl ?_
      rintro (h | h | h)
      · exact h1 (Or.inl h)
      · exact h1 (Or.inr h)
      · exact h2 h
    · intro calls hc
      cases hc
    · intro h3
      exact absurd h3 h1
    · intro h3
      exact absurd h3 h2

/-- Witness for C4: on the `ZCU111` board the cell calls
`set_ref_clks(122.88, 409.6)` exactly once. -/
theorem set_ref_clks_platform_check_witness :
    set_ref_clks_calls "ZCU111" = .ok [(122.88, 409.6)] :=
  (set_ref_clks_platform_check "ZCU111").2.2.1 (Or.inl rfl)

/-- Claim C7: in `transfer_data_block` the serialised encoder output
is truncated to exactly its first `n` bits before baseband modulation:
for a receive buffer of the allocated size `⌈n/8⌉` the truncated
stream has exactly `n` bits, it is an initial segment of the full
serialised stream, and the discarded tail — the non-valid padding bits
of the final byte — has exactly `8 * ⌈n/8⌉ - n` bits. -/
theorem encoded_data_bits_trunc (buf : List ℕ) (n : ℕ)
    (h : buf.length = (n + 7) / 8) :
    (encoded_data_bits buf n).length = n ∧
    encoded_data_bits buf n ++ (serialise buf).drop n = serialise buf ∧
    (serialise buf).length = 8 * buf.length ∧
    ((serialise buf).drop n).length = 8 * buf.length - n := by
  have hlen := serialise_length buf
  have hn : n ≤ (serialise buf).length := by
    rw [hlen, h]
    omega
  refine ⟨?_, ?_, hlen, ?_⟩
  · simp [encoded_data_bits, hn]
  · exact List.take_append_drop n (serialise buf)
  · simp [hlen]

/-- Witness for C7: a DOCSIS-style partial final byte, `n = 12` with a
two-byte receive buffer. -/
theorem encoded_data_bits_trunc_witness :
    (encoded_data_bits [171, 3] 12).length = 12 ∧
    encoded_data_bits [171, 3] 12 ++ (serialise [171, 3]).drop 12 =
      serialise [171, 3] ∧
    (serialise [171, 3]).length = 8 * ([171, 3] : List ℕ).length ∧
    ((serialise [171, 3]).drop 12).length =
      8 * ([171, 3] : List ℕ).length - 12 :=
  encoded_data_bits_trunc [171, 3] 12 (by decide)

/-- Claim C8: for every pair of equal-length, non-empty transmitted
and received bit arrays, `BER = N_error / N_bits` lies in the closed
interval from 0 to 1, and it is zero exactly when the received bits
equal the transmitted bits at every position. -/
theorem ber_props (tx rx : List ℕ) (hlen : tx.length = rx.length)
    (hne : tx ≠ []) :
    0 ≤ BER tx rx ∧ BER tx rx ≤ 1 ∧ (BER tx rx = 0 ↔ tx = rx) := by
  have hpos : 0 < tx.length := List.length_pos.mpr hne
  have hcnt : N_error tx rx ≤ tx.length := by
    calc N_error tx rx ≤ (tx.zip rx).length := List.countP_le_length _
      _ = min tx.length rx.length := List.length_zip _ _
      _ ≤ tx.length := min_le_left _ _
  have hq : (0 : ℚ) < (tx.length : ℚ) := by exact_mod_cast hpos
  simp only [BER]
  refine ⟨?_, ?_, ?_⟩
  · exact div_nonneg (by positivity) (le_of_lt hq)
  · rw [div_le_one hq]
    exact_mod_cast hcnt
  · rw [div_eq_zero_iff]
    constructor
    · rintro (h0 | h0)
      · exact (count_diff_eq_zero tx rx hlen).mp (by exact_mod_cast h0)
      · exact absurd h0 (ne_of_gt hq)
    · intro heq
      exact Or.inl (by exact_mod_cast (count_diff_eq_zero tx rx hlen).mpr heq)

/-- Witness for C8: the two-bit arrays `[0, 1]` and `[1, 1]`. -/
theorem ber_props_witness :
    0 ≤ BER [0, 1] [1, 1] ∧ BER [0, 1] [1, 1] ≤ 1 ∧
    (BER [0, 1] [1, 1] = 0 ↔ ([0, 1] : List ℕ) = [1, 1]) :=
  ber_props [0, 1] [1, 1] rfl (by decide)

/-- Claim C9: every frame sent by the transmitter software wrapper is
exactly 64 bytes long, with the byte-aligned fields laid out in order,
and whenever the payload occupies fewer than 44 bytes the remainder of
the frame is the zero padding, keeping the total at 64 bytes. -/
theorem make_frame_length (random barker frame_number start_flag end_flag
    frame_length payload : List ℕ)
    (hh : random.length + barker.length + frame_number.length +
      start_flag.length + end_flag.length + frame_length.length = 20)
    (hp : payload.length ≤ 44) :
    (make_frame random barker frame_number start_flag end_flag
      frame_length payload).length = 64 ∧
    (make_frame random barker frame_number start_flag end_flag
      frame_length payload).drop (20 + payload.length) =
      List.replicate (44 - payload.length) 0 := by
  have hassoc : make_frame random barker frame_number start_flag end_flag
      frame_length payload =
      (random ++ barker ++ frame_number ++ start_flag ++ end_flag ++
        frame_length ++ payload) ++ List.replicate (44 - payload.length) 0 := by
    simp [make_frame]
  constructor
  · rw [hassoc]
    simp [List.length_append]
    omega
  · rw [hassoc, List.drop_left']
    simp [List.length_append]
    omega

/-- Witness for C9: a frame with a three-byte payload and 20 bytes of
non-payload fields is 64 bytes with 41 zero-padding bytes. -/
theorem make_frame_length_witness :
    (make_frame (List.replicate 13 7) [1, 1, 1] [2] [1] [0] [3]
      [9, 9, 9]).length = 64 ∧
    (make_frame (List.replicate 13 7) [1, 1, 1] [2] [1] [0] [3]
      [9, 9, 9]).drop 23 = List.replicate 41 0 :=
  make_frame_length (List.replicate 13 7) [1, 1, 1] [2] [1] [0] [3]
    [9, 9, 9] (by decide) (by decide)

/-- Claim C10: the interrupt callback only raises the flag, leaving
the recorded measurements untouched; a poll iteration of the main loop
records a measurement exactly when the flag is raised, clearing the
flag as it does so, and leaves the state unchanged otherwise; and
along every interleaved execution the number of recorded measurements
is bounded by the available interrupts, so each processed measurement
is preceded by the flag being set by the interrupt path and cleared by
the main loop. -/
theorem intr_flag_protocol :
    (∀ s, (intr_handler s).intr_flag = 1 ∧ (intr_handler s).BER = s.BER) ∧
    (∀ b s, s.intr_flag = 1 →
      main_poll b s = { intr_flag := 0, BER := s.BER ++ [b] }) ∧
    (∀ b s, s.intr_flag ≠ 1 → main_poll b s = s) ∧
    (∀ evs s, (ber_run evs s).BER.length + pending (ber_run evs s) ≤
      s.BER.length + pending s + countIntr evs) := by
  refine ⟨fun s => ⟨rfl, rfl⟩, ?_, ?_, ber_run_measure⟩
  · intro b s h
    simp [main_poll, h]
  · intro b s h
    simp [main_poll, h]

/-- Witness for C10: a poll at a raised flag records the measurement
and clears the flag. -/
theorem intr_flag_protocol_witness :
    main_poll (1 / 2) ⟨1, []⟩ = ⟨0, [1 / 2]⟩ :=
  intr_flag_protocol.2.1 (1 / 2) ⟨1, []⟩ rfl

end RFSoC
